import Mathlib

/-
Verification of the constant-expression registry of the RuSTy compiler front end
(src/index/const_expressions.rs). The registry stores constant-expression nodes
in a generational arena; handles (slot index + generation tag) stay stable under
in-place resolution-state transitions and never alias a later insertion after
removal. We give a shallow embedding of the registry and its arena backing
store, and prove the specified properties about insertion, lookup, state
transitions, removal, integer extraction and iteration.
-/

set_option autoImplicit false

universe u

/-- Modelled from the spec: the expression-tree node type `crate::ast::AstStatement`
is produced by the separate parser and is not part of the analysed sources. Per the
spec it must support a distinguishable integer-literal shape carrying a wide signed
integer payload (an `i128` in the accessor's signature; no arithmetic is performed on
it, so it is embedded as `Int`), and must be duplicable as a value. Other node shapes
are represented by reference and binary-expression nodes. -/
inductive AstStatement : Type where
  | LiteralInteger (value : Int)
  | Reference (name : String)
  | BinaryExpression (left : AstStatement) (right : AstStatement)
deriving DecidableEq

/-- Debug rendering of a node, standing in for the derived `Debug` formatting used by
the `format!` calls in the source's error messages. -/
def AstStatement.debugStr : AstStatement → String
  | .LiteralInteger value => "LiteralInteger value: " ++ toString value
  | .Reference name => "Reference name: " ++ name
  | .BinaryExpression l r => "BinaryExpression left: " ++ l.debugStr ++ " right: " ++ r.debugStr

/-- Modelled from the spec: a slot of the backing store of the `generational_arena`
crate (a dependency, not part of the analysed sources); the spec describes it as "a
growable array of optional slots with a free list and per-slot generation counters".
A slot is either free (holding the next free-list link) or occupied by a value
stamped with the generation at which it was inserted. -/
inductive Entry (α : Type u) : Type u where
  | Free (next_free : Option Nat)
  | Occupied (generation : Nat) (value : α)
deriving DecidableEq

/-- Modelled from the spec: `generational_arena::Index`, the stable handle — "a slot
position plus a generation tag so that a handle to a removed slot never aliases a
later insertion into the same physical storage". The `u64` generation counter and
`usize` position are embedded as `Nat`: both only ever grow by single increments, so
machine-width wraparound is unreachable and no modular reduction is modelled. -/
structure Index : Type where
  index : Nat
  generation : Nat
deriving DecidableEq

/-- Debug rendering of a handle, standing in for the derived `Debug` formatting used
in the handle-not-found error messages. -/
def Index.debugStr (i : Index) : String :=
  "Index index: " ++ toString i.index ++ " generation: " ++ toString i.generation

/-- Modelled from the spec: `generational_arena::Arena`. The crate batches slot
allocation (it reserves several linked free slots at once); since reserving happens
only when the free list is empty and links the new slots in increasing order, the
allocation order of slot positions is exactly: most-recently-freed slot first, else
the next never-used position. The embedding realises that order directly, keeping
only the slots used so far, so every operation's observable behaviour (returned
handles, lookups, iteration order, `len`) agrees with the crate. -/
structure Arena (α : Type u) : Type u where
  items : List (Entry α)
  generation : Nat
  free_list_head : Option Nat
  len : Nat
deriving DecidableEq

/-- Construction of an empty arena (`Arena::new`). -/
def Arena.new {α : Type u} : Arena α :=
  { items := [], generation := 0, free_list_head := none, len := 0 }

/-- Insertion (`Arena::insert`): pop the head of the free list if there is one,
otherwise occupy the next never-used position. The inserted slot is stamped with the
arena's current generation, which is also the generation of the returned handle.
When the free-list head points at an occupied slot the crate halts ("corrupt free
list"); that state is unreachable through the public interface, and the embedding
totalises it by falling back to a fresh position. -/
def Arena.insert {α : Type u} (a : Arena α) (value : α) : Arena α × Index :=
  match a.free_list_head with
  | some i =>
    match a.items[i]? with
    | some (Entry.Free next) =>
      ({ items := a.items.set i (Entry.Occupied a.generation value),
         generation := a.generation,
         free_list_head := next,
         len := a.len + 1 },
       { index := i, generation := a.generation })
    | _ =>
      ({ items := a.items ++ [Entry.Occupied a.generation value],
         generation := a.generation,
         free_list_head := none,
         len := a.len + 1 },
       { index := a.items.length, generation := a.generation })
  | none =>
      ({ items := a.items ++ [Entry.Occupied a.generation value],
         generation := a.generation,
         free_list_head := none,
         len := a.len + 1 },
       { index := a.items.length, generation := a.generation })

/-- Lookup (`Arena::get`): the slot at the handle's position must be occupied and its
generation stamp must equal the handle's generation tag. -/
def Arena.get {α : Type u} (a : Arena α) (i : Index) : Option α :=
  match a.items[i.index]? with
  | some (Entry.Occupied g v) => if g = i.generation then some v else none
  | _ => none

/-- In-place update through a live handle: the embedding of assigning through
`Arena::get_mut` (which succeeds under exactly the same condition as `Arena::get`,
and whose assignment replaces the slot's value, leaving its generation stamp — equal
to the handle's — unchanged). -/
def Arena.set {α : Type u} (a : Arena α) (i : Index) (v : α) : Arena α :=
  { a with items := a.items.set i.index (Entry.Occupied i.generation v) }

/-- Removal (`Arena::remove`): when the slot is occupied with a matching generation,
free it onto the head of the free list, bump the arena generation, decrement `len`,
and hand back the value; otherwise return the arena unchanged with `none`. -/
def Arena.remove {α : Type u} (a : Arena α) (i : Index) : Arena α × Option α :=
  match a.items[i.index]? with
  | some (Entry.Occupied g v) =>
    if g = i.generation then
      ({ items := a.items.set i.index (Entry.Free a.free_list_head),
         generation := a.generation + 1,
         free_list_head := some i.index,
         len := a.len - 1 },
       some v)
    else (a, none)
  | _ => (a, none)

/-- Iteration (`Arena::iter`): walk the slots in storage order, starting the handle
positions at `k`, yielding one `(handle, value)` pair per occupied slot. -/
def Arena.entriesFrom {α : Type u} : Nat → List (Entry α) → List (Index × α)
  | _, [] => []
  | k, Entry.Occupied g v :: rest => ({ index := k, generation := g }, v) :: Arena.entriesFrom (k + 1) rest
  | k, Entry.Free _ :: rest => Arena.entriesFrom (k + 1) rest

/-- The full iteration sequence of an arena, in storage order. -/
def Arena.iterList {α : Type u} (a : Arena α) : List (Index × α) :=
  Arena.entriesFrom 0 a.items

/-- Handle type of the registry: `pub type ConstId = generational_arena::Index`. -/
abbrev ConstId : Type := Index

/-- Resolution state (`pub enum ConstExpression`): a registered expression is
`Unresolved`, `Resolved`, or `Unresolvable` with a reason. -/
inductive ConstExpression : Type where
  | Unresolved (statement : AstStatement)
  | Resolved (statement : AstStatement)
  | Unresolvable (statement : AstStatement) (reason : String)
deriving DecidableEq

/-- Current node of a resolution state (`ConstExpression::get_statement`): defined in
every variant. -/
def ConstExpression.get_statement : ConstExpression → AstStatement
  | .Unresolved statement => statement
  | .Resolved statement => statement
  | .Unresolvable statement _ => statement

/-- Slot payload (`struct ConstWrapper`): the resolution state plus the immutable
target-type name recorded at insertion. -/
structure ConstWrapper : Type where
  expr : ConstExpression
  target_type_name : String
deriving DecidableEq

/-- Current node of a wrapper (`ConstWrapper::get_statement`). -/
def ConstWrapper.get_statement (w : ConstWrapper) : AstStatement :=
  w.expr.get_statement

/-- The registry (`pub struct ConstExpressions`): an arena of wrappers. -/
structure ConstExpressions : Type where
  expressions : Arena ConstWrapper
deriving DecidableEq

/-- Construction (`ConstExpressions::new`). -/
def ConstExpressions.new : ConstExpressions :=
  { expressions := Arena.new }

/-- Insertion (`ConstExpressions::add_expression`): wrap the statement as
`Unresolved` with its target-type name and insert it, returning the fresh handle. -/
def ConstExpressions.add_expression (c : ConstExpressions) (statement : AstStatement)
    (target_type_name : String) : ConstExpressions × ConstId :=
  let r := c.expressions.insert { expr := ConstExpression.Unresolved statement, target_type_name := target_type_name }
  ({ expressions := r.1 }, r.2)

/-- Lookup of the current node (`ConstExpressions::find_expression`). -/
def ConstExpressions.find_expression (c : ConstExpressions) (id : ConstId) : Option AstStatement :=
  (c.expressions.get id).map ConstWrapper.get_statement

/-- Lookup of the target-type name (`ConstExpressions::find_expression_target_type`). -/
def ConstExpressions.find_expression_target_type (c : ConstExpressions) (id : ConstId) : Option String :=
  (c.expressions.get id).map ConstWrapper.target_type_name

/-- Lookup of the full resolution state (`ConstExpressions::find_const_expression`). -/
def ConstExpressions.find_const_expression (c : ConstExpressions) (id : ConstId) : Option ConstExpression :=
  (c.expressions.get id).map ConstWrapper.expr

/-- Removal (`ConstExpressions::remove`): remove the wrapper and hand its statement
and target-type name to the caller. The source matches on the three variants; each
arm pairs the contained statement with the wrapper's target-type name. -/
def ConstExpressions.remove (c : ConstExpressions) (id : ConstId) :
    ConstExpressions × Option (AstStatement × String) :=
  match c.expressions.remove id with
  | (a, some w) =>
    ({ expressions := a },
     some (match w.expr with
       | .Unresolved s => (s, w.target_type_name)
       | .Resolved s => (s, w.target_type_name)
       | .Unresolvable s _ => (s, w.target_type_name)))
  | (a, none) => ({ expressions := a }, none)

/-- Handle-not-found message of the mutating operations:
"Cannot find constant expression with id: " followed by the handle's debug form. -/
def markErrMsg (id : ConstId) : String :=
  "Cannot find constant expression with id: " ++ id.debugStr

/-- State transition (`ConstExpressions::mark_resolved`): through a live handle,
overwrite the resolution state with `Resolved new_statement` (the target-type name is
untouched); on a dead handle, fail with the handle-not-found message and leave the
registry unchanged (the `&mut self` receiver mutates nothing on the error path). -/
def ConstExpressions.mark_resolved (c : ConstExpressions) (id : ConstId)
    (new_statement : AstStatement) : ConstExpressions × Except String Unit :=
  match c.expressions.get id with
  | none => (c, Except.error (markErrMsg id))
  | some w =>
    ({ expressions := c.expressions.set id { expr := ConstExpression.Resolved new_statement, target_type_name := w.target_type_name } },
     Except.ok ())

/-- State transition (`ConstExpressions::mark_unresolvable`): through a live handle,
overwrite the resolution state with `Unresolvable`, retaining a clone of the
wrapper's current statement and attaching the reason; on a dead handle, fail with the
handle-not-found message and leave the registry unchanged. -/
def ConstExpressions.mark_unresolvable (c : ConstExpressions) (id : ConstId)
    (reason : String) : ConstExpressions × Except String Unit :=
  match c.expressions.get id with
  | none => (c, Except.error (markErrMsg id))
  | some w =>
    ({ expressions := c.expressions.set id { expr := ConstExpression.Unresolvable w.get_statement reason, target_type_name := w.target_type_name } },
     Except.ok ())

/-- Forwarding wrapper (`ConstExpressions::add_constant_expression`). -/
def ConstExpressions.add_constant_expression (c : ConstExpressions) (expr : AstStatement)
    (target_type : String) : ConstExpressions × ConstId :=
  c.add_expression expr target_type

/-- Convenience wrapper (`ConstExpressions::maybe_add_constant_expression`): insert
if a statement is present, else skip. -/
def ConstExpressions.maybe_add_constant_expression (c : ConstExpressions)
    (expr : Option AstStatement) (targe_type_name : String) : ConstExpressions × Option ConstId :=
  match expr with
  | none => (c, none)
  | some it =>
    let r := c.add_constant_expression it targe_type_name
    (r.1, some r.2)

/-- Forwarding wrapper (`ConstExpressions::get_constant_statement`). -/
def ConstExpressions.get_constant_statement (c : ConstExpressions) (id : ConstId) : Option AstStatement :=
  c.find_expression id

/-- Convenience wrapper (`ConstExpressions::maybe_get_constant_statement`): look up
if a handle is present, else absent. -/
def ConstExpressions.maybe_get_constant_statement (c : ConstExpressions)
    (id : Option ConstId) : Option AstStatement :=
  id.bind (fun it => c.get_constant_statement it)

/-- Handle-not-found message of the integer accessor: "Cannot find constant
expression". -/
def intNotFoundMsg : String :=
  "Cannot find constant expression"

/-- Shape-mismatch message of the integer accessor: "Cannot extract int constant
from " followed by the node's debug form. -/
def intShapeErrMsg (s : AstStatement) : String :=
  "Cannot extract int constant from " ++ s.debugStr

/-- Integer extraction (`ConstExpressions::get_constant_int_statement_value`): fetch
the current node; fail with the handle-not-found message when absent, return the
literal's payload when it is an integer literal, and fail with the shape-mismatch
message on any other shape — purely by node shape, never consulting the resolution
state. -/
def ConstExpressions.get_constant_int_statement_value (c : ConstExpressions) (id : ConstId) :
    Except String Int :=
  match c.get_constant_statement id with
  | none => Except.error intNotFoundMsg
  | some it =>
    match it with
    | AstStatement.LiteralInteger value => Except.ok value
    | other => Except.error (intShapeErrMsg other)

/-- Iteration over the registry (`impl IntoIterator for &ConstExpressions` /
`IntoStatementIter`): each arena pair is mapped to the handle plus the wrapper's
current statement, in storage order. -/
def ConstExpressions.statementIterList (c : ConstExpressions) : List (ConstId × AstStatement) :=
  c.expressions.iterList.map (fun p => (p.1, p.2.get_statement))

/-
Operation traces. A registry is exercised by the outside analyzer through
sequences of the mutating calls; reachability and the "forever after" clauses of
the spec are phrased over such sequences.
-/

/-- Mutating registry calls, as fired by the outside analyzer. -/
inductive RegistryOp : Type where
  | add (statement : AstStatement) (target_type_name : String)
  | markResolved (id : ConstId) (new_statement : AstStatement)
  | markUnresolvable (id : ConstId) (reason : String)
  | remove (id : ConstId)
deriving DecidableEq

/-- State effect of one mutating call (failing calls leave the state unchanged,
as their `&mut self` receivers mutate nothing on the error path). -/
def RegistryOp.run (c : ConstExpressions) : RegistryOp → ConstExpressions
  | .add s t => (c.add_expression s t).1
  | .markResolved id s => (c.mark_resolved id s).1
  | .markUnresolvable id r => (c.mark_unresolvable id r).1
  | .remove id => (c.remove id).1

/-- State after a sequence of mutating calls. -/
def runOps (c : ConstExpressions) : List RegistryOp → ConstExpressions
  | [] => c
  | op :: rest => runOps (op.run c) rest

/-- Read-only registry calls: the lookups and full-table iteration, all taking the
registry by shared (`&self`) reference. -/
inductive QueryOp : Type where
  | findExpr (id : ConstId)
  | findTargetType (id : ConstId)
  | findConstExpr (id : ConstId)
  | getConstIntValue (id : ConstId)
  | iterateAll
deriving DecidableEq

/-- Result values of the read-only calls. -/
inductive QueryOut : Type where
  | optStatement (r : Option AstStatement)
  | optTargetType (r : Option String)
  | optConstExpr (r : Option ConstExpression)
  | intResult (r : Except String Int)
  | entries (r : List (ConstId × AstStatement))

/-- Effect of one read-only call: the registry it leaves behind together with the
produced value. The `&self` receivers of the source cannot write to the registry, so
the state component is the input registry itself; the value component applies the
embedded lookup. -/
def QueryOp.run (c : ConstExpressions) : QueryOp → ConstExpressions × QueryOut
  | .findExpr id => (c, QueryOut.optStatement (c.find_expression id))
  | .findTargetType id => (c, QueryOut.optTargetType (c.find_expression_target_type id))
  | .findConstExpr id => (c, QueryOut.optConstExpr (c.find_const_expression id))
  | .getConstIntValue id => (c, QueryOut.intResult (c.get_constant_int_statement_value id))
  | .iterateAll => (c, QueryOut.entries c.statementIterList)

/-- State after a sequence that interleaves mutating and read-only calls. -/
def runMixed (c : ConstExpressions) : List (Sum RegistryOp QueryOp) → ConstExpressions
  | [] => c
  | Sum.inl op :: rest => runMixed (op.run c) rest
  | Sum.inr q :: rest => runMixed (QueryOp.run c q).1 rest

/-- Whether a mutating call is one of the two state transitions. -/
def RegistryOp.isMark : RegistryOp → Bool
  | .markResolved _ _ => true
  | .markUnresolvable _ _ => true
  | _ => false

/-- Whether a mutating call is an insertion. -/
def RegistryOp.isAdd : RegistryOp → Bool
  | .add _ _ => true
  | _ => false

/-- Whether a mutating call is a removal. -/
def RegistryOp.isRemoval : RegistryOp → Bool
  | .remove _ => true
  | _ => false

/-- Number of insertions in a call sequence. -/
def addCount (ops : List RegistryOp) : Nat :=
  ops.countP RegistryOp.isAdd

/-- Number of removals in a call sequence. -/
def removeCount (ops : List RegistryOp) : Nat :=
  ops.countP RegistryOp.isRemoval

/-- Whether a call sequence, fired from the given registry, consists of insertions
and successful removals only. -/
def isInsertRemoveTrace : ConstExpressions → List RegistryOp → Bool
  | _, [] => true
  | c, RegistryOp.add s t :: rest => isInsertRemoveTrace ((RegistryOp.add s t).run c) rest
  | c, RegistryOp.remove id :: rest =>
      ((c.remove id).2).isSome && isInsertRemoveTrace ((RegistryOp.remove id).run c) rest
  | _, RegistryOp.markResolved _ _ :: _ => false
  | _, RegistryOp.markUnresolvable _ _ :: _ => false

/-- Handles removed successfully along a call sequence fired from the given
registry. -/
def removedIds : ConstExpressions → List RegistryOp → List ConstId
  | _, [] => []
  | c, RegistryOp.remove id :: rest =>
      (if ((c.remove id).2).isSome then [id] else []) ++
        removedIds ((RegistryOp.remove id).run c) rest
  | c, RegistryOp.add s t :: rest => removedIds ((RegistryOp.add s t).run c) rest
  | c, RegistryOp.markResolved id s :: rest => removedIds ((RegistryOp.markResolved id s).run c) rest
  | c, RegistryOp.markUnresolvable id r :: rest => removedIds ((RegistryOp.markUnresolvable id r).run c) rest

/-
Arena invariants.
-/

/-- Generation stamp bound of a slot, relative to the arena generation. -/
def Entry.genLe {α : Type u} (m : Nat) : Entry α → Bool
  | .Free _ => true
  | .Occupied g _ => decide (g ≤ m)

/-- Arena invariant, computable form: every occupied slot's generation stamp is at
most the arena's current generation. It holds of the empty arena and is preserved by
every operation: insertions stamp slots with the current generation, updates keep the
stamp, and removals only grow the arena generation. -/
def Arena.genBoundB {α : Type u} (a : Arena α) : Bool :=
  a.items.all (Entry.genLe a.generation)

/-- Arena invariant, propositional form. -/
def Arena.genBound {α : Type u} (a : Arena α) : Prop :=
  ∀ (i g : Nat) (v : α), a.items[i]? = some (Entry.Occupied g v) → g ≤ a.generation

/-- A handle is dead in an arena when its generation tag is strictly below the arena
generation and its slot position, if occupied at all, carries a different stamp.
Removal puts the removed handle in this state, every operation preserves it, and a
dead handle can never again be looked up nor be returned by an insertion. -/
def Arena.DeadAt {α : Type u} (a : Arena α) (h : Index) : Prop :=
  h.generation < a.generation ∧
  ∀ g v, a.items[h.index]? = some (Entry.Occupied g v) → g ≠ h.generation

/-- Number of occupied slots in a slot list. -/
def occList {α : Type u} : List (Entry α) → Nat
  | [] => 0
  | Entry.Occupied _ _ :: rest => occList rest + 1
  | Entry.Free _ :: rest => occList rest

/-- Number of live entries of a registry. -/
def ConstExpressions.occCount (c : ConstExpressions) : Nat :=
  occList c.expressions.items

/-
Concrete fixtures used to instantiate the theorems on closed inputs.
-/

/-- The handle issued by the first insertion into a fresh registry. -/
def wId0 : ConstId :=
  { index := 0, generation := 0 }

/-- A registry holding one unresolved reference node. -/
def wRegRef : ConstExpressions :=
  (ConstExpressions.new.add_expression (AstStatement.Reference "x") "INT").1

/-- A registry holding one unresolved integer-literal node. -/
def wRegLit : ConstExpressions :=
  (ConstExpressions.new.add_expression (AstStatement.LiteralInteger 42) "INT").1

/-- A registry whose single entry has been marked resolved. -/
def wRegResolved : ConstExpressions :=
  (wRegRef.mark_resolved wId0 (AstStatement.LiteralInteger 7)).1

/-- A concrete trace of two insertions followed by one successful removal. -/
def wOps : List RegistryOp :=
  [RegistryOp.add (AstStatement.Reference "x") "INT",
   RegistryOp.add (AstStatement.LiteralInteger 1) "BOOL",
   RegistryOp.remove wId0]

/-
Basic facts about slot lists.
-/

/-- A position answering a lookup is within bounds. -/
theorem lt_length_of_getElem_some {α : Type u} {l : List α} {i : Nat} {x : α}
    (h : l[i]? = some x) : i < l.length :=
  (List.getElem?_eq_some.mp h).1

/-- A value answering a lookup is a member of the list. -/
theorem mem_of_getElem_some {α : Type u} {l : List α} {i : Nat} {x : α}
    (h : l[i]? = some x) : x ∈ l := by
  obtain ⟨hlt, he⟩ := List.getElem?_eq_some.mp h
  exact he ▸ List.getElem_mem hlt

/-
Arena-level lemmas shared by the claim proofs.
-/

/-- Looking up the handle returned by an insertion yields the inserted value. -/
theorem Arena.get_insert_self {α : Type u} (a : Arena α) (v : α) :
    ((a.insert v).1).get (a.insert v).2 = some v := by
  unfold Arena.insert
  cases hf : a.free_list_head with
  | none =>
    simp [Arena.get, List.getElem?_concat_length]
  | some i =>
    dsimp only
    cases hg : a.items[i]? with
    | none =>
      simp [Arena.get, List.getElem?_concat_length]
    | some e =>
      cases e with
      | Free nx =>
        simp only [Arena.get]
        rw [List.getElem?_set_self (lt_length_of_getElem_some hg)]
        simp
      | Occupied g w =>
        simp [Arena.get, List.getElem?_concat_length]

/-- Normal form of a successful arena lookup: the slot at the handle's position is
occupied with exactly the handle's generation. -/
theorem Arena.get_eq_some_iff {α : Type u} (a : Arena α) (i : Index) (v : α) :
    a.get i = some v ↔ a.items[i.index]? = some (Entry.Occupied i.generation v) := by
  unfold Arena.get
  cases hg : a.items[i.index]? with
  | none => simp
  | some e =>
    cases e with
    | Free nx => simp
    | Occupied g w =>
      by_cases hgen : g = i.generation
      · subst hgen
        simp
      · simp [hgen]

/-- Updating through a live handle makes its lookup yield the new value. -/
theorem Arena.get_set_self {α : Type u} (a : Arena α) (i : Index) (w v : α)
    (h : a.get i = some w) : (a.set i v).get i = some v := by
  rw [Arena.get_eq_some_iff] at h ⊢
  unfold Arena.set
  simpa using List.getElem?_set_self (lt_length_of_getElem_some h)

/-- Updating one slot leaves lookups at every other slot position unchanged. -/
theorem Arena.get_set_ne {α : Type u} (a : Arena α) (i j : Index) (v : α)
    (hne : i.index ≠ j.index) : (a.set i v).get j = a.get j := by
  unfold Arena.set Arena.get
  rw [List.getElem?_set_ne hne]

/-- C1: for every registry state, node and type name, `add_expression` returns a
handle under which `find_expression` yields the inserted node,
`find_const_expression` yields the `Unresolved` variant holding that node, and
`find_expression_target_type` yields exactly the supplied type name. -/
theorem add_expression_registers_unresolved_entry (c : ConstExpressions)
    (n : AstStatement) (t : String) :
    ((c.add_expression n t).1).find_expression ((c.add_expression n t).2) = some n ∧
    ((c.add_expression n t).1).find_const_expression ((c.add_expression n t).2) =
      some (ConstExpression.Unresolved n) ∧
    ((c.add_expression n t).1).find_expression_target_type ((c.add_expression n t).2) = some t := by
  have h := Arena.get_insert_self c.expressions
    { expr := ConstExpression.Unresolved n, target_type_name := t }
  refine ⟨?_, ?_, ?_⟩ <;>
    simp [ConstExpressions.add_expression, ConstExpressions.find_expression,
      ConstExpressions.find_const_expression, ConstExpressions.find_expression_target_type, h,
      ConstWrapper.get_statement, ConstExpression.get_statement]

/-- C2: once `mark_resolved` succeeds on a handle, the full resolution state is the
`Resolved` variant holding the new node, and the current node is the new node — no
longer whatever node was stored before the call. -/
theorem mark_resolved_overwrites (c : ConstExpressions) (id : ConstId) (n : AstStatement)
    (h : (c.mark_resolved id n).2 = Except.ok ()) :
    ((c.mark_resolved id n).1).find_const_expression id = some (ConstExpression.Resolved n) ∧
    ((c.mark_resolved id n).1).find_expression id = some n ∧
    ∀ old, c.find_expression id = some old → old ≠ n →
      ((c.mark_resolved id n).1).find_expression id ≠ some old := by
  cases hg : c.expressions.get id with
  | none =>
    exfalso
    unfold ConstExpressions.mark_resolved at h
    rw [hg] at h
    simp at h
  | some w =>
    have hnew := Arena.get_set_self c.expressions id w
      { expr := ConstExpression.Resolved n, target_type_name := w.target_type_name } hg
    unfold ConstExpressions.mark_resolved
    rw [hg]
    refine ⟨?_, ?_, ?_⟩
    · unfold ConstExpressions.find_const_expression
      dsimp only
      rw [hnew]
      rfl
    · unfold ConstExpressions.find_expression
      dsimp only
      rw [hnew]
      rfl
    · intro old _ hne
      unfold ConstExpressions.find_expression
      dsimp only
      rw [hnew]
      intro hc
      exact hne (by simpa [ConstWrapper.get_statement, ConstExpression.get_statement] using hc.symm)

/-- Witness for C2 on a concrete registry: marking the sole entry resolved with the
literal 7 succeeds and the resolution state becomes `Resolved 7`. -/
theorem mark_resolved_overwrites_witness :
    (wRegRef.mark_resolved wId0 (AstStatement.LiteralInteger 7)).2 = Except.ok () ∧
    ((wRegRef.mark_resolved wId0 (AstStatement.LiteralInteger 7)).1).find_const_expression wId0 =
      some (ConstExpression.Resolved (AstStatement.LiteralInteger 7)) :=
  ⟨by rfl, (mark_resolved_overwrites wRegRef wId0 (AstStatement.LiteralInteger 7) (by rfl)).1⟩

/-- C3: on a live handle, `mark_unresolvable` succeeds, the resolution state becomes
the `Unresolvable` variant carrying a duplicate of the node current immediately
before the call together with exactly the supplied reason, and the current node is
still that retained node. -/
theorem mark_unresolvable_retains_node (c : ConstExpressions) (id : ConstId) (r : String)
    (s : AstStatement) (hs : c.find_expression id = some s) :
    (c.mark_unresolvable id r).2 = Except.ok () ∧
    ((c.mark_unresolvable id r).1).find_const_expression id =
      some (ConstExpression.Unresolvable s r) ∧
    ((c.mark_unresolvable id r).1).find_expression id = some s := by
  cases hg : c.expressions.get id with
  | none =>
    exfalso
    unfold ConstExpressions.find_expression at hs
    rw [hg] at hs
    simp at hs
  | some w =>
    have hws : w.get_statement = s := by
      unfold ConstExpressions.find_expression at hs
      rw [hg] at hs
      simpa using hs
    have hnew := Arena.get_set_self c.expressions id w
      { expr := ConstExpression.Unresolvable w.get_statement r,
        target_type_name := w.target_type_name } hg
    unfold ConstExpressions.mark_unresolvable
    rw [hg]
    refine ⟨rfl, ?_, ?_⟩
    · unfold ConstExpressions.find_const_expression
      dsimp only
      rw [hnew, hws]
      rfl
    · unfold ConstExpressions.find_expression
      dsimp only
      rw [hnew]
      simp only [Option.map_some']
      rw [show ({ expr := ConstExpression.Unresolvable w.get_statement r, target_type_name := w.target_type_name } : ConstWrapper).get_statement = w.get_statement from rfl, hws]

/-- Witness for C3 on a concrete registry: marking the sole (integer-literal) entry
unresolvable retains the literal node and records the exact reason. -/
theorem mark_unresolvable_retains_node_witness :
    wRegLit.find_expression wId0 = some (AstStatement.LiteralInteger 42) ∧
    ((wRegLit.mark_unresolvable wId0 "undeclared symbol Z").1).find_const_expression wId0 =
      some (ConstExpression.Unresolvable (AstStatement.LiteralInteger 42) "undeclared symbol Z") :=
  ⟨by decide,
   (mark_unresolvable_retains_node wRegLit wId0 "undeclared symbol Z"
      (AstStatement.LiteralInteger 42) (by decide)).2.1⟩

/-- C6: on a handle with no live entry, both state transitions fail with the
handle-not-found error and leave the registry completely unchanged, so every other
lookup and any following operation behaves exactly as without the failing call. -/
theorem invalid_handle_marks_fail (c : ConstExpressions) (id : ConstId)
    (n : AstStatement) (r : String) (h : c.find_expression id = none) :
    (c.mark_resolved id n).2 = Except.error (markErrMsg id) ∧
    (c.mark_resolved id n).1 = c ∧
    (c.mark_unresolvable id r).2 = Except.error (markErrMsg id) ∧
    (c.mark_unresolvable id r).1 = c ∧
    ∀ j, ((c.mark_resolved id n).1).find_const_expression j = c.find_const_expression j ∧
      ((c.mark_unresolvable id r).1).find_expression_target_type j =
        c.find_expression_target_type j := by
  have hg : c.expressions.get id = none := by
    unfold ConstExpressions.find_expression at h
    exact Option.map_eq_none'.mp h
  unfold ConstExpressions.mark_resolved ConstExpressions.mark_unresolvable
  rw [hg]
  exact ⟨rfl, rfl, rfl, rfl, fun j => ⟨rfl, rfl⟩⟩

/-- Witness for C6 on a concrete registry: marking through the never-issued handle of
an empty registry fails and leaves the registry unchanged. -/
theorem invalid_handle_marks_fail_witness :
    ConstExpressions.new.find_expression wId0 = none ∧
    (ConstExpressions.new.mark_resolved wId0 (AstStatement.LiteralInteger 1)).1 =
      ConstExpressions.new :=
  ⟨by decide,
   (invalid_handle_marks_fail ConstExpressions.new wId0 (AstStatement.LiteralInteger 1)
      "reason" (by decide)).2.1⟩

/-- C7: on a live handle both state transitions succeed unconditionally, whatever
variant is currently stored: `mark_resolved` overwrites the state with `Resolved`
and `mark_unresolvable` overwrites it with `Unresolvable` over the current node, so
all re-transitions between `Resolved` and `Unresolvable` are permitted. -/
theorem mark_transitions_unrestricted (c : ConstExpressions) (id : ConstId)
    (e : ConstExpression) (n : AstStatement) (r : String)
    (h : c.find_const_expression id = some e) :
    (c.mark_resolved id n).2 = Except.ok () ∧
    ((c.mark_resolved id n).1).find_const_expression id = some (ConstExpression.Resolved n) ∧
    (c.mark_unresolvable id r).2 = Except.ok () ∧
    ((c.mark_unresolvable id r).1).find_const_expression id =
      some (ConstExpression.Unresolvable e.get_statement r) := by
  cases hg : c.expressions.get id with
  | none =>
    exfalso
    unfold ConstExpressions.find_const_expression at h
    rw [hg] at h
    simp at h
  | some w =>
    have hwe : w.expr = e := by
      unfold ConstExpressions.find_const_expression at h
      rw [hg] at h
      simpa using h
    have hnew1 := Arena.get_set_self c.expressions id w
      { expr := ConstExpression.Resolved n, target_type_name := w.target_type_name } hg
    have hnew2 := Arena.get_set_self c.expressions id w
      { expr := ConstExpression.Unresolvable w.get_statement r,
        target_type_name := w.target_type_name } hg
    unfold ConstExpressions.mark_resolved ConstExpressions.mark_unresolvable
    rw [hg]
    refine ⟨rfl, ?_, rfl, ?_⟩
    · unfold ConstExpressions.find_const_expression
      dsimp only
      rw [hnew1]
      rfl
    · unfold ConstExpressions.find_const_expression
      dsimp only
      rw [hnew2]
      simp only [Option.map_some']
      rw [show w.get_statement = ConstWrapper.get_statement w from rfl, ConstWrapper.get_statement, hwe]

/-- Witness for C7 on a concrete registry whose entry is already `Resolved`:
re-resolving it succeeds (the Resolved-to-Resolved transition is permitted). -/
theorem mark_transitions_unrestricted_witness :
    wRegResolved.find_const_expression wId0 =
      some (ConstExpression.Resolved (AstStatement.LiteralInteger 7)) ∧
    (wRegResolved.mark_resolved wId0 (AstStatement.LiteralInteger 8)).2 = Except.ok () :=
  ⟨by decide,
   (mark_transitions_unrestricted wRegResolved wId0
      (ConstExpression.Resolved (AstStatement.LiteralInteger 7))
      (AstStatement.LiteralInteger 8) "reason" (by decide)).1⟩

/-- C4: integer extraction is decided purely by the shape of the current node. On a
live entry whose current node is an integer literal it returns exactly the literal's
payload; on any other shape it returns the shape-mismatch error, which differs from
the handle-not-found error; on a dead handle it returns the handle-not-found error;
and its result is a function of the current node alone, so the resolution state is
never consulted. -/
theorem get_constant_int_value_by_shape (c : ConstExpressions) (id : ConstId) :
    (∀ v, c.find_expression id = some (AstStatement.LiteralInteger v) →
      c.get_constant_int_statement_value id = Except.ok v) ∧
    (∀ s, c.find_expression id = some s → (∀ v, s ≠ AstStatement.LiteralInteger v) →
      c.get_constant_int_statement_value id = Except.error (intShapeErrMsg s) ∧
      intShapeErrMsg s ≠ intNotFoundMsg) ∧
    (c.find_expression id = none →
      c.get_constant_int_statement_value id = Except.error intNotFoundMsg) ∧
    ∀ (c' : ConstExpressions) (id' : ConstId), c.find_expression id = c'.find_expression id' →
      c.get_constant_int_statement_value id = c'.get_constant_int_statement_value id' := by
  refine ⟨?_, ?_, ?_, ?_⟩
  · intro v hv
    unfold ConstExpressions.get_constant_int_statement_value ConstExpressions.get_constant_statement
    rw [hv]
  · intro s hs hnl
    constructor
    · unfold ConstExpressions.get_constant_int_statement_value ConstExpressions.get_constant_statement
      rw [hs]
      cases s with
      | LiteralInteger v => exact absurd rfl (hnl v)
      | Reference name => rfl
      | BinaryExpression l r => rfl
    · intro hEq
      have hlen := congrArg String.length hEq
      have hpre : ("Cannot extract int constant from " : String).length = 33 := rfl
      have hnf : intNotFoundMsg.length = 31 := rfl
      unfold intShapeErrMsg at hlen
      rw [String.length_append, hpre, hnf] at hlen
      omega
  · intro h0
    unfold ConstExpressions.get_constant_int_statement_value ConstExpressions.get_constant_statement
    rw [h0]
  · intro c' id' hEq
    unfold ConstExpressions.get_constant_int_statement_value ConstExpressions.get_constant_statement
    rw [hEq]

/-- Witness for C4 on a concrete registry: the unresolved literal-42 entry yields
`Ok 42` from the integer accessor. -/
theorem get_constant_int_value_by_shape_witness :
    wRegLit.find_expression wId0 = some (AstStatement.LiteralInteger 42) ∧
    wRegLit.get_constant_int_statement_value wId0 = Except.ok 42 :=
  ⟨by decide, (get_constant_int_value_by_shape wRegLit wId0).1 42 (by decide)⟩

/-- Replacing a live slot's wrapper with one carrying the same target-type name
leaves every target-type lookup unchanged. -/
theorem find_target_after_set (c : ConstExpressions) (id : ConstId) (w w' : ConstWrapper)
    (hg : c.expressions.get id = some w)
    (ht : w'.target_type_name = w.target_type_name) (j : ConstId) :
    (ConstExpressions.mk (c.expressions.set id w')).find_expression_target_type j =
      c.find_expression_target_type j := by
  unfold ConstExpressions.find_expression_target_type
  by_cases hij : id.index = j.index
  · rw [Arena.get_eq_some_iff] at hg
    have hgj : c.expressions.items[j.index]? = some (Entry.Occupied id.generation w) := by
      rw [← hij]
      exact hg
    have hset : (c.expressions.set id w').items[j.index]? =
        some (Entry.Occupied id.generation w') := by
      show (c.expressions.items.set id.index (Entry.Occupied id.generation w'))[j.index]? = _
      rw [← hij]
      exact List.getElem?_set_self (lt_length_of_getElem_some hg)
    unfold Arena.get
    rw [hset, hgj]
    by_cases hgen : id.generation = j.generation <;> simp [hgen, ht]
  · rw [Arena.get_set_ne c.expressions id j w' hij]

/-- The `mark_resolved` transition never changes any entry's target-type name. -/
theorem mark_resolved_preserves_target_type (c : ConstExpressions) (id : ConstId)
    (n : AstStatement) (j : ConstId) :
    ((c.mark_resolved id n).1).find_expression_target_type j =
      c.find_expression_target_type j := by
  unfold ConstExpressions.mark_resolved
  cases hg : c.expressions.get id with
  | none => rfl
  | some w =>
    dsimp only
    exact find_target_after_set c id w
      { expr := ConstExpression.Resolved n, target_type_name := w.target_type_name } hg rfl j

/-- The `mark_unresolvable` transition never changes any entry's target-type name. -/
theorem mark_unresolvable_preserves_target_type (c : ConstExpressions) (id : ConstId)
    (r : String) (j : ConstId) :
    ((c.mark_unresolvable id r).1).find_expression_target_type j =
      c.find_expression_target_type j := by
  unfold ConstExpressions.mark_unresolvable
  cases hg : c.expressions.get id with
  | none => rfl
  | some w =>
    dsimp only
    exact find_target_after_set c id w
      { expr := ConstExpression.Unresolvable w.get_statement r,
        target_type_name := w.target_type_name } hg rfl j

/-- C9: no sequence of state transitions (and read-only calls, which have no state
effect at all) ever mutates a target-type name: after any sequence of `mark_resolved`
and `mark_unresolvable` calls, every handle's target-type lookup answers exactly as
before the sequence — the name supplied at insertion, until the entry is removed. -/
theorem target_type_never_mutated (c : ConstExpressions) (ops : List RegistryOp)
    (hm : ops.all RegistryOp.isMark = true) (id : ConstId) :
    (runOps c ops).find_expression_target_type id = c.find_expression_target_type id := by
  induction ops generalizing c with
  | nil => rfl
  | cons op rest ih =>
    rw [List.all_cons, Bool.and_eq_true] at hm
    cases op with
    | add s t => simp [RegistryOp.isMark] at hm
    | remove i => simp [RegistryOp.isMark] at hm
    | markResolved i s =>
      show (runOps ((RegistryOp.markResolved i s).run c) rest).find_expression_target_type id = _
      rw [ih _ hm.2]
      exact mark_resolved_preserves_target_type c i s id
    | markUnresolvable i r =>
      show (runOps ((RegistryOp.markUnresolvable i r).run c) rest).find_expression_target_type id = _
      rw [ih _ hm.2]
      exact mark_unresolvable_preserves_target_type c i r id

/-- Witness for C9 on a concrete registry: resolving and then failing the sole entry
leaves its target-type lookup untouched. -/
theorem target_type_never_mutated_witness :
    ([RegistryOp.markResolved wId0 (AstStatement.LiteralInteger 7),
      RegistryOp.markUnresolvable wId0 "nope"].all RegistryOp.isMark = true) ∧
    (runOps wRegLit [RegistryOp.markResolved wId0 (AstStatement.LiteralInteger 7),
      RegistryOp.markUnresolvable wId0 "nope"]).find_expression_target_type wId0 =
      wRegLit.find_expression_target_type wId0 :=
  ⟨by decide,
   target_type_never_mutated wRegLit
     [RegistryOp.markResolved wId0 (AstStatement.LiteralInteger 7),
      RegistryOp.markUnresolvable wId0 "nope"] (by decide) wId0⟩

/-- Interleaving read-only calls anywhere in a call sequence never changes the
resulting registry: the mixed run equals the run of the mutating calls alone. -/
theorem runMixed_eq_runOps (c : ConstExpressions) (ops : List (Sum RegistryOp QueryOp)) :
    runMixed c ops = runOps c (ops.filterMap Sum.getLeft?) := by
  induction ops generalizing c with
  | nil => rfl
  | cons x rest ih =>
    cases x with
    | inl op =>
      show runMixed (op.run c) rest = _
      rw [ih]
      rfl
    | inr q =>
      show runMixed (QueryOp.run c q).1 rest = _
      have h1 : (QueryOp.run c q).1 = c := by cases q <;> rfl
      rw [h1, ih]
      rfl

/-- C10: the lookups and full-table iteration are read-only: each such call hands the
registry back exactly as it was, every entry's node, state and target type lookup is
unchanged, every previously valid handle remains valid, and dropping read-only calls
from any interleaved call sequence does not change the final registry. -/
theorem queries_never_modify_registry (c : ConstExpressions) (q : QueryOp)
    (ops : List (Sum RegistryOp QueryOp)) :
    (QueryOp.run c q).1 = c ∧
    (∀ id, ((QueryOp.run c q).1).find_expression id = c.find_expression id ∧
      ((QueryOp.run c q).1).find_expression_target_type id = c.find_expression_target_type id ∧
      ((QueryOp.run c q).1).find_const_expression id = c.find_const_expression id ∧
      ((QueryOp.run c q).1).get_constant_int_statement_value id =
        c.get_constant_int_statement_value id) ∧
    ((QueryOp.run c q).1).statementIterList = c.statementIterList ∧
    runMixed c ops = runOps c (ops.filterMap Sum.getLeft?) := by
  have h1 : (QueryOp.run c q).1 = c := by cases q <;> rfl
  refine ⟨h1, ?_, ?_, runMixed_eq_runOps c ops⟩
  · intro id
    rw [h1]
    exact ⟨rfl, rfl, rfl, rfl⟩
  · rw [h1]

/-- Full characterization of lookup after an in-bounds-or-not update. -/
theorem getElem?_set_full {α : Type u} (l : List α) (i : Nat) (x : α) (j : Nat) :
    (l.set i x)[j]? = if i = j then (if i < l.length then some x else l[j]?) else l[j]? := by
  by_cases hij : i = j
  · subst hij
    by_cases hlt : i < l.length
    · rw [if_pos rfl, if_pos hlt]
      exact List.getElem?_set_self hlt
    · rw [if_pos rfl, if_neg hlt, List.set_eq_of_length_le (Nat.le_of_not_lt hlt)]
  · rw [if_neg hij]
    exact List.getElem?_set_ne hij

/-- Full characterization of lookup after appending one element. -/
theorem getElem?_append_single {α : Type u} (l : List α) (x : α) (j : Nat) :
    (l ++ [x])[j]? = if j < l.length then l[j]? else if j = l.length then some x else none := by
  by_cases h1 : j < l.length
  · rw [if_pos h1]
    exact List.getElem?_append_left h1
  · rw [if_neg h1]
    by_cases h2 : j = l.length
    · rw [if_pos h2, h2]
      exact List.getElem?_concat_length l x
    · rw [if_neg h2]
      apply List.getElem?_eq_none
      rw [List.length_append]
      simp only [List.length_singleton]
      omega

/-- The computable arena invariant implies its propositional form. -/
theorem Arena.genBound_of_genBoundB {α : Type u} (a : Arena α) (h : a.genBoundB = true) :
    a.genBound := by
  intro i g v hg
  have hm := mem_of_getElem_some hg
  have := List.all_eq_true.mp h _ hm
  simpa [Entry.genLe] using this

/-- A dead handle can no longer be looked up. -/
theorem Arena.get_eq_none_of_deadAt {α : Type u} (a : Arena α) (h : Index)
    (hd : a.DeadAt h) : a.get h = none := by
  unfold Arena.get
  cases hg : a.items[h.index]? with
  | none => rfl
  | some e =>
    cases e with
    | Free nx => rfl
    | Occupied g v =>
      simp [hd.2 g v hg]

/-- Removing through a dead handle is a no-op that returns nothing. -/
theorem Arena.remove_self_of_deadAt {α : Type u} (a : Arena α) (h : Index)
    (hd : a.DeadAt h) : (a.remove h).2 = none ∧ (a.remove h).1 = a := by
  unfold Arena.remove
  cases hg : a.items[h.index]? with
  | none => exact ⟨rfl, rfl⟩
  | some e =>
    cases e with
    | Free nx => exact ⟨rfl, rfl⟩
    | Occupied g v =>
      dsimp only
      rw [if_neg (hd.2 g v hg)]
      exact ⟨rfl, rfl⟩

/-- Writing a slot whose stamp avoids the dead handle's generation keeps the dead
handle's position clean. -/
theorem deadAt_slots_write {α : Type u} (l : List (Entry α)) (i : Nat) (e : Entry α) (h : Index)
    (hslot : ∀ (g : Nat) (v' : α), l[h.index]? = some (Entry.Occupied g v') → g ≠ h.generation)
    (he : i = h.index → ∀ (g : Nat) (v' : α), e = Entry.Occupied g v' → g ≠ h.generation) :
    ∀ (g : Nat) (v' : α), (l.set i e)[h.index]? = some (Entry.Occupied g v') →
      g ≠ h.generation := by
  intro g v' hg'
  rw [getElem?_set_full] at hg'
  by_cases h1 : i = h.index
  · rw [if_pos h1] at hg'
    by_cases h2 : i < l.length
    · rw [if_pos h2] at hg'
      exact he h1 g v' (Option.some.inj hg')
    · rw [if_neg h2] at hg'
      exact hslot g v' hg'
  · rw [if_neg h1] at hg'
    exact hslot g v' hg'

/-- Appending a slot whose stamp avoids the dead handle's generation keeps the dead
handle's position clean. -/
theorem deadAt_slots_append {α : Type u} (l : List (Entry α)) (e : Entry α) (h : Index)
    (hslot : ∀ (g : Nat) (v' : α), l[h.index]? = some (Entry.Occupied g v') → g ≠ h.generation)
    (he : ∀ (g : Nat) (v' : α), e = Entry.Occupied g v' → g ≠ h.generation) :
    ∀ (g : Nat) (v' : α), (l ++ [e])[h.index]? = some (Entry.Occupied g v') →
      g ≠ h.generation := by
  intro g v' hg'
  rw [getElem?_append_single] at hg'
  by_cases h1 : h.index < l.length
  · rw [if_pos h1] at hg'
    exact hslot g v' hg'
  · rw [if_neg h1] at hg'
    by_cases h2 : h.index = l.length
    · rw [if_pos h2] at hg'
      exact he g v' (Option.some.inj hg')
    · rw [if_neg h2] at hg'
      cases hg'

/-- Insertion preserves handle deadness and returns a handle different from every
dead handle — even when it reuses the dead handle's storage slot. -/
theorem Arena.insert_preserves_deadAt {α : Type u} (a : Arena α) (v : α) (h : Index)
    (hd : a.DeadAt h) : ((a.insert v).1).DeadAt h ∧ (a.insert v).2 ≠ h := by
  obtain ⟨hgen, hslot⟩ := hd
  have hfreshgen : ∀ (g : Nat) (v' : α),
      Entry.Occupied a.generation v = Entry.Occupied g v' → g ≠ h.generation := by
    intro g v' he
    cases he
    omega
  have hfresh : ∀ j : Nat, ({ index := j, generation := a.generation } : Index) ≠ h := by
    intro j hcontra
    have := congrArg Index.generation hcontra
    dsimp at this
    omega
  unfold Arena.insert
  cases hf : a.free_list_head with
  | none =>
    exact ⟨⟨hgen, deadAt_slots_append a.items _ h hslot hfreshgen⟩, hfresh a.items.length⟩
  | some i =>
    dsimp only
    cases hgi : a.items[i]? with
    | none =>
      exact ⟨⟨hgen, deadAt_slots_append a.items _ h hslot hfreshgen⟩, hfresh a.items.length⟩
    | some e =>
      cases e with
      | Free nx =>
        exact ⟨⟨hgen, deadAt_slots_write a.items i _ h hslot (fun _ => hfreshgen)⟩, hfresh i⟩
      | Occupied g0 v0 =>
        exact ⟨⟨hgen, deadAt_slots_append a.items _ h hslot hfreshgen⟩, hfresh a.items.length⟩

/-- Updating through a live handle preserves every dead handle's deadness. -/
theorem Arena.set_preserves_deadAt {α : Type u} (a : Arena α) (i : Index) (w v : α)
    (hg : a.get i = some w) (h : Index) (hd : a.DeadAt h) : (a.set i v).DeadAt h := by
  obtain ⟨hgen, hslot⟩ := hd
  rw [Arena.get_eq_some_iff] at hg
  refine ⟨hgen, ?_⟩
  apply deadAt_slots_write a.items i.index _ h hslot
  intro hih g v' he
  cases he
  rw [hih] at hg
  exact hslot i.generation w hg

/-- Removal preserves every dead handle's deadness. -/
theorem Arena.remove_preserves_deadAt {α : Type u} (a : Arena α) (i : Index) (h : Index)
    (hd : a.DeadAt h) : ((a.remove i).1).DeadAt h := by
  obtain ⟨hgen, hslot⟩ := hd
  unfold Arena.remove
  cases hgi : a.items[i.index]? with
  | none => exact ⟨hgen, hslot⟩
  | some e =>
    cases e with
    | Free nx => exact ⟨hgen, hslot⟩
    | Occupied g v =>
      dsimp only
      by_cases hg2 : g = i.generation
      · rw [if_pos hg2]
        refine ⟨?_, ?_⟩
        · show h.generation < a.generation + 1
          omega
        apply deadAt_slots_write a.items i.index _ h hslot
        intro _ g' v' he
        cases he
      · rw [if_neg hg2]
        exact ⟨hgen, hslot⟩

/-- A successful removal leaves the removed handle dead (under the generation-bound
invariant). -/
theorem Arena.remove_establishes_deadAt {α : Type u} (a : Arena α) (i : Index) (w : α)
    (hgb : a.genBound) (hw : (a.remove i).2 = some w) : ((a.remove i).1).DeadAt i := by
  unfold Arena.remove at hw ⊢
  cases hgi : a.items[i.index]? with
  | none =>
    rw [hgi] at hw
    cases hw
  | some e =>
    cases e with
    | Free nx =>
      rw [hgi] at hw
      cases hw
    | Occupied g v =>
      rw [hgi] at hw
      dsimp only at hw ⊢
      by_cases hg2 : g = i.generation
      · rw [if_pos hg2] at hw ⊢
        have hle : g ≤ a.generation := hgb i.index g v hgi
        refine ⟨?_, ?_⟩
        · show i.generation < a.generation + 1
          omega
        intro g' v' hg'
        rw [getElem?_set_full, if_pos rfl, if_pos (lt_length_of_getElem_some hgi)] at hg'
        cases hg'
      · rw [if_neg hg2] at hw
        cases hw

/-- Insertion preserves the generation-bound invariant. -/
theorem Arena.insert_preserves_genBound {α : Type u} (a : Arena α) (v : α)
    (hgb : a.genBound) : ((a.insert v).1).genBound := by
  have happ : ∀ (j g : Nat) (v' : α),
      (a.items ++ [Entry.Occupied a.generation v])[j]? = some (Entry.Occupied g v') →
        g ≤ a.generation := by
    intro j g v' hg'
    rw [getElem?_append_single] at hg'
    by_cases h1 : j < a.items.length
    · rw [if_pos h1] at hg'
      exact hgb j g v' hg'
    · rw [if_neg h1] at hg'
      by_cases h2 : j = a.items.length
      · rw [if_pos h2] at hg'
        cases Option.some.inj hg'
        exact Nat.le_refl _
      · rw [if_neg h2] at hg'
        cases hg'
  unfold Arena.insert
  cases hf : a.free_list_head with
  | none => exact happ
  | some i =>
    dsimp only
    cases hgi : a.items[i]? with
    | none => exact happ
    | some e =>
      cases e with
      | Free nx =>
        intro j g v' hg'
        rw [getElem?_set_full] at hg'
        by_cases h1 : i = j
        · rw [if_pos h1] at hg'
          by_cases h2 : i < a.items.length
          · rw [if_pos h2] at hg'
            cases Option.some.inj hg'
            exact Nat.le_refl _
          · rw [if_neg h2] at hg'
            exact hgb j g v' hg'
        · rw [if_neg h1] at hg'
          exact hgb j g v' hg'
      | Occupied g0 v0 => exact happ

/-- Updating through a live handle preserves the generation-bound invariant. -/
theorem Arena.set_preserves_genBound {α : Type u} (a : Arena α) (i : Index) (w v : α)
    (hg : a.get i = some w) (hgb : a.genBound) : (a.set i v).genBound := by
  rw [Arena.get_eq_some_iff] at hg
  have hstamp : i.generation ≤ a.generation := hgb i.index i.generation w hg
  intro j g v' hg'
  rw [show (a.set i v).items = a.items.set i.index (Entry.Occupied i.generation v) from rfl,
    getElem?_set_full] at hg'
  by_cases h1 : i.index = j
  · rw [if_pos h1] at hg'
    by_cases h2 : i.index < a.items.length
    · rw [if_pos h2] at hg'
      cases Option.some.inj hg'
      exact hstamp
    · rw [if_neg h2] at hg'
      exact hgb j g v' hg'
  · rw [if_neg h1] at hg'
    exact hgb j g v' hg'

/-- Writing a slot whose stamp respects a larger bound preserves the generation
bound relative to that larger bound. -/
theorem genBound_slots_write {α : Type u} (l : List (Entry α)) (i : Nat) (e : Entry α)
    (G G' : Nat) (hmono : G ≤ G')
    (hslot : ∀ (j g : Nat) (v : α), l[j]? = some (Entry.Occupied g v) → g ≤ G)
    (he : ∀ (g : Nat) (v : α), e = Entry.Occupied g v → g ≤ G') :
    ∀ (j g : Nat) (v : α), (l.set i e)[j]? = some (Entry.Occupied g v) → g ≤ G' := by
  intro j g v hg'
  rw [getElem?_set_full] at hg'
  by_cases h1 : i = j
  · rw [if_pos h1] at hg'
    by_cases h2 : i < l.length
    · rw [if_pos h2] at hg'
      exact he g v (Option.some.inj hg')
    · rw [if_neg h2] at hg'
      exact le_trans (hslot j g v hg') hmono
  · rw [if_neg h1] at hg'
    exact le_trans (hslot j g v hg') hmono

/-- Removal preserves the generation-bound invariant. -/
theorem Arena.remove_preserves_genBound {α : Type u} (a : Arena α) (i : Index)
    (hgb : a.genBound) : ((a.remove i).1).genBound := by
  unfold Arena.remove
  cases hgi : a.items[i.index]? with
  | none => exact hgb
  | some e =>
    cases e with
    | Free nx => exact hgb
    | Occupied g v =>
      dsimp only
      by_cases hg2 : g = i.generation
      · rw [if_pos hg2]
        intro j g' v' hg'
        exact genBound_slots_write a.items i.index (Entry.Free a.free_list_head)
          a.generation (a.generation + 1) (Nat.le_succ _) hgb
          (fun g'' v'' he => by cases he) j g' v' hg'
      · rw [if_neg hg2]
        exact hgb

/-- The registry component left by a removal is the arena component left by the
underlying arena removal. -/
theorem ConstExpressions.remove_fst (c : ConstExpressions) (id : ConstId) :
    (c.remove id).1 = ConstExpressions.mk (c.expressions.remove id).1 := by
  unfold ConstExpressions.remove
  cases hr : c.expressions.remove id with
  | mk a' r =>
    cases r with
    | none => rfl
    | some w => rfl

/-- A registry removal hands back a value exactly when the underlying arena removal
does. -/
theorem ConstExpressions.remove_snd_isSome (c : ConstExpressions) (id : ConstId) :
    ((c.remove id).2).isSome = ((c.expressions.remove id).2).isSome := by
  unfold ConstExpressions.remove
  cases hr : c.expressions.remove id with
  | mk a' r =>
    cases r with
    | none => rfl
    | some w => rfl

/-- Removing a live entry returns its current statement paired with its target-type
name, and succeeds at the arena level. -/
theorem ConstExpressions.remove_spec_of_get (c : ConstExpressions) (id : ConstId)
    (w : ConstWrapper) (hg : c.expressions.get id = some w) :
    (c.remove id).2 = some (w.get_statement, w.target_type_name) ∧
    (c.expressions.remove id).2 = some w := by
  rw [Arena.get_eq_some_iff] at hg
  have har : (c.expressions.remove id).2 = some w := by
    unfold Arena.remove
    rw [hg]
    dsimp only
    rw [if_pos rfl]
  refine ⟨?_, har⟩
  unfold ConstExpressions.remove
  cases hr : c.expressions.remove id with
  | mk a' r =>
    rw [hr] at har
    dsimp only at har
    rw [har]
    dsimp only
    cases hwe : w.expr <;>
      simp [ConstWrapper.get_statement, ConstExpression.get_statement, hwe]

/-- Every mutating call preserves every dead handle's deadness. -/
theorem runOp_preserves_deadAt (c : ConstExpressions) (op : RegistryOp) (h : ConstId)
    (hd : c.expressions.DeadAt h) : ((op.run c).expressions).DeadAt h := by
  cases op with
  | add s t =>
    exact (Arena.insert_preserves_deadAt c.expressions
      { expr := ConstExpression.Unresolved s, target_type_name := t } h hd).1
  | markResolved i s =>
    show ((c.mark_resolved i s).1.expressions).DeadAt h
    unfold ConstExpressions.mark_resolved
    cases hg : c.expressions.get i with
    | none => exact hd
    | some w =>
      dsimp only
      exact Arena.set_preserves_deadAt c.expressions i w _ hg h hd
  | markUnresolvable i r =>
    show ((c.mark_unresolvable i r).1.expressions).DeadAt h
    unfold ConstExpressions.mark_unresolvable
    cases hg : c.expressions.get i with
    | none => exact hd
    | some w =>
      dsimp only
      exact Arena.set_preserves_deadAt c.expressions i w _ hg h hd
  | remove i =>
    show ((c.remove i).1.expressions).DeadAt h
    rw [ConstExpressions.remove_fst]
    exact Arena.remove_preserves_deadAt c.expressions i h hd

/-- A whole sequence of mutating calls preserves every dead handle's deadness. -/
theorem runOps_preserves_deadAt (c : ConstExpressions) (ops : List RegistryOp) (h : ConstId)
    (hd : c.expressions.DeadAt h) : ((runOps c ops).expressions).DeadAt h := by
  induction ops generalizing c with
  | nil => exact hd
  | cons op rest ih => exact ih (op.run c) (runOp_preserves_deadAt c op h hd)

/-- Every mutating call preserves the generation-bound invariant. -/
theorem runOp_preserves_genBound (c : ConstExpressions) (op : RegistryOp)
    (hgb : c.expressions.genBound) : ((op.run c).expressions).genBound := by
  cases op with
  | add s t =>
    exact Arena.insert_preserves_genBound c.expressions
      { expr := ConstExpression.Unresolved s, target_type_name := t } hgb
  | markResolved i s =>
    show ((c.mark_resolved i s).1.expressions).genBound
    unfold ConstExpressions.mark_resolved
    cases hg : c.expressions.get i with
    | none => exact hgb
    | some w =>
      dsimp only
      exact Arena.set_preserves_genBound c.expressions i w _ hg hgb
  | markUnresolvable i r =>
    show ((c.mark_unresolvable i r).1.expressions).genBound
    unfold ConstExpressions.mark_unresolvable
    cases hg : c.expressions.get i with
    | none => exact hgb
    | some w =>
      dsimp only
      exact Arena.set_preserves_genBound c.expressions i w _ hg hgb
  | remove i =>
    show ((c.remove i).1.expressions).genBound
    rw [ConstExpressions.remove_fst]
    exact Arena.remove_preserves_genBound c.expressions i hgb

/-- Through a dead handle, every lookup is absent, removal returns nothing, and every
insertion — into this or any other slot — returns a different handle. -/
theorem finds_absent_of_deadAt (c : ConstExpressions) (h : ConstId)
    (hd : c.expressions.DeadAt h) :
    c.find_expression h = none ∧ c.find_expression_target_type h = none ∧
    c.find_const_expression h = none ∧ (c.remove h).2 = none ∧
    ∀ (n : AstStatement) (ty : String), (c.add_expression n ty).2 ≠ h := by
  have hget := Arena.get_eq_none_of_deadAt c.expressions h hd
  refine ⟨?_, ?_, ?_, ?_, ?_⟩
  · unfold ConstExpressions.find_expression
    rw [hget]
    rfl
  · unfold ConstExpressions.find_expression_target_type
    rw [hget]
    rfl
  · unfold ConstExpressions.find_const_expression
    rw [hget]
    rfl
  · have har := (Arena.remove_self_of_deadAt c.expressions h hd).1
    have hiso := ConstExpressions.remove_snd_isSome c h
    rw [har] at hiso
    cases ho : (c.remove h).2 with
    | none => rfl
    | some p =>
      rw [ho] at hiso
      simp at hiso
  · intro n ty
    exact (Arena.insert_preserves_deadAt c.expressions
      { expr := ConstExpression.Unresolved n, target_type_name := ty } h hd).2

/-- C5: removing a live entry hands back its current node paired with its target-type
name; afterwards, no matter what sequence of further operations runs, every lookup
through the old handle stays absent, a second removal returns absent, and every
handle returned by any later insertion differs from the old handle even when the
storage slot is reused. -/
theorem remove_returns_entry_and_invalidates_handle (c : ConstExpressions) (id : ConstId)
    (s : AstStatement) (t : String)
    (hb : c.expressions.genBoundB = true)
    (hs : c.find_expression id = some s)
    (ht : c.find_expression_target_type id = some t) :
    (c.remove id).2 = some (s, t) ∧
    ∀ ops : List RegistryOp,
      (runOps (c.remove id).1 ops).find_expression id = none ∧
      (runOps (c.remove id).1 ops).find_expression_target_type id = none ∧
      (runOps (c.remove id).1 ops).find_const_expression id = none ∧
      ((runOps (c.remove id).1 ops).remove id).2 = none ∧
      ∀ (n : AstStatement) (ty : String),
        ((runOps (c.remove id).1 ops).add_expression n ty).2 ≠ id := by
  obtain ⟨w, hg, hws⟩ : ∃ w, c.expressions.get id = some w ∧ w.get_statement = s := by
    unfold ConstExpressions.find_expression at hs
    obtain ⟨w, hw1, hw2⟩ := Option.map_eq_some'.mp hs
    exact ⟨w, hw1, hw2⟩
  have hwt : w.target_type_name = t := by
    unfold ConstExpressions.find_expression_target_type at ht
    rw [hg] at ht
    simpa using ht
  have hrem := ConstExpressions.remove_spec_of_get c id w hg
  constructor
  · rw [hrem.1, hws, hwt]
  · intro ops
    have hdead0 : ((c.remove id).1.expressions).DeadAt id := by
      rw [ConstExpressions.remove_fst]
      exact Arena.remove_establishes_deadAt c.expressions id w
        (Arena.genBound_of_genBoundB c.expressions hb) hrem.2
    have hdead : ((runOps (c.remove id).1 ops).expressions).DeadAt id :=
      runOps_preserves_deadAt (c.remove id).1 ops id hdead0
    exact finds_absent_of_deadAt (runOps (c.remove id).1 ops) id hdead

/-- Witness for C5 on a concrete registry: removing the literal-42 entry returns the
node with its type name, and after re-inserting into the freed slot the old handle is
still absent while the new handle differs from it. -/
theorem remove_returns_entry_and_invalidates_handle_witness :
    (wRegLit.expressions.genBoundB = true ∧
     wRegLit.find_expression wId0 = some (AstStatement.LiteralInteger 42) ∧
     wRegLit.find_expression_target_type wId0 = some "INT") ∧
    (wRegLit.remove wId0).2 = some (AstStatement.LiteralInteger 42, "INT") :=
  ⟨⟨by decide, by decide, by decide⟩,
   (remove_returns_entry_and_invalidates_handle wRegLit wId0
      (AstStatement.LiteralInteger 42) "INT" (by decide) (by decide) (by decide)).1⟩

/-- Occupying a free slot raises the occupied-slot count by one. -/
theorem occList_set_occupied_of_free {α : Type u} :
    ∀ (l : List (Entry α)) (i : Nat) (nx : Option Nat) (g : Nat) (v : α),
      l[i]? = some (Entry.Free nx) →
      occList (l.set i (Entry.Occupied g v)) = occList l + 1 := by
  intro l
  induction l with
  | nil =>
    intro i nx g v h
    cases h
  | cons e rest ih =>
    intro i nx g v h
    cases i with
    | zero =>
      rw [List.getElem?_cons_zero] at h
      have he : e = Entry.Free nx := Option.some.inj h
      subst he
      rfl
    | succ n =>
      rw [List.getElem?_cons_succ] at h
      cases e with
      | Occupied g0 v0 =>
        show occList (rest.set n (Entry.Occupied g v)) + 1 = occList rest + 1 + 1
        rw [ih n nx g v h]
      | Free nx0 =>
        show occList (rest.set n (Entry.Occupied g v)) = occList rest + 1
        exact ih n nx g v h

/-- Freeing an occupied slot lowers the occupied-slot count by one. -/
theorem occList_set_free_of_occupied {α : Type u} :
    ∀ (l : List (Entry α)) (i : Nat) (nx : Option Nat) (g : Nat) (v : α),
      l[i]? = some (Entry.Occupied g v) →
      occList (l.set i (Entry.Free nx)) + 1 = occList l := by
  intro l
  induction l with
  | nil =>
    intro i nx g v h
    cases h
  | cons e rest ih =>
    intro i nx g v h
    cases i with
    | zero =>
      rw [List.getElem?_cons_zero] at h
      have he : e = Entry.Occupied g v := Option.some.inj h
      subst he
      rfl
    | succ n =>
      rw [List.getElem?_cons_succ] at h
      cases e with
      | Occupied g0 v0 =>
        show occList (rest.set n (Entry.Free nx)) + 1 + 1 = occList rest + 1
        rw [ih n nx g v h]
      | Free nx0 =>
        show occList (rest.set n (Entry.Free nx)) + 1 = occList rest
        exact ih n nx g v h

/-- Appending an occupied slot raises the occupied-slot count by one. -/
theorem occList_append_occupied {α : Type u} (g : Nat) (v : α) :
    ∀ l : List (Entry α), occList (l ++ [Entry.Occupied g v]) = occList l + 1 := by
  intro l
  induction l with
  | nil => rfl
  | cons e rest ih =>
    cases e with
    | Occupied g0 v0 =>
      show occList (rest ++ [Entry.Occupied g v]) + 1 = occList rest + 1 + 1
      rw [ih]
    | Free nx0 =>
      show occList (rest ++ [Entry.Occupied g v]) = occList rest + 1
      exact ih

/-- An insertion raises the number of live entries by one. -/
theorem occCount_add (c : ConstExpressions) (s : AstStatement) (t : String) :
    ((c.add_expression s t).1).occCount = c.occCount + 1 := by
  unfold ConstExpressions.occCount ConstExpressions.add_expression Arena.insert
  cases hf : c.expressions.free_list_head with
  | none => exact occList_append_occupied _ _ c.expressions.items
  | some i =>
    dsimp only
    cases hgi : c.expressions.items[i]? with
    | none => exact occList_append_occupied _ _ c.expressions.items
    | some e =>
      cases e with
      | Free nx => exact occList_set_occupied_of_free c.expressions.items i nx _ _ hgi
      | Occupied g0 v0 => exact occList_append_occupied _ _ c.expressions.items

/-- A successful removal lowers the number of live entries by one. -/
theorem occCount_remove (c : ConstExpressions) (id : ConstId)
    (hsome : ((c.remove id).2).isSome = true) :
    ((c.remove id).1).occCount + 1 = c.occCount := by
  have harena : ((c.expressions.remove id).2).isSome = true := by
    rw [← ConstExpressions.remove_snd_isSome]
    exact hsome
  unfold ConstExpressions.occCount
  rw [ConstExpressions.remove_fst]
  show occList ((c.expressions.remove id).1).items + 1 = occList c.expressions.items
  unfold Arena.remove at harena ⊢
  cases hgi : c.expressions.items[id.index]? with
  | none =>
    rw [hgi] at harena
    cases harena
  | some e =>
    cases e with
    | Free nx =>
      rw [hgi] at harena
      cases harena
    | Occupied g v =>
      rw [hgi] at harena
      dsimp only at harena
      dsimp only
      by_cases hg2 : g = id.generation
      · rw [if_pos hg2]
        exact occList_set_free_of_occupied c.expressions.items id.index
          c.expressions.free_list_head g v hgi
      · rw [if_neg hg2] at harena
        simp at harena

/-- Over a trace of insertions and successful removals, the live-entry count evolves
as the number of insertions minus the number of removals. -/
theorem trace_occCount :
    ∀ (ops : List RegistryOp) (c : ConstExpressions), isInsertRemoveTrace c ops = true →
      (runOps c ops).occCount + removeCount ops = c.occCount + addCount ops := by
  intro ops
  induction ops with
  | nil =>
    intro c _
    rfl
  | cons op rest ih =>
    intro c htr
    cases op with
    | add s t =>
      have htr' : isInsertRemoveTrace ((RegistryOp.add s t).run c) rest = true := htr
      have hrec := ih ((RegistryOp.add s t).run c) htr'
      have hstep : ((RegistryOp.add s t).run c).occCount = c.occCount + 1 :=
        occCount_add c s t
      have hcadd : addCount (RegistryOp.add s t :: rest) = addCount rest + 1 := by
        simp [addCount, List.countP_cons, RegistryOp.isAdd]
      have hcrem : removeCount (RegistryOp.add s t :: rest) = removeCount rest := by
        simp [removeCount, List.countP_cons, RegistryOp.isRemoval]
      show (runOps ((RegistryOp.add s t).run c) rest).occCount +
        removeCount (RegistryOp.add s t :: rest) = c.occCount +
          addCount (RegistryOp.add s t :: rest)
      rw [hcadd, hcrem]
      omega
    | markResolved i s =>
      exact absurd htr (by simp [isInsertRemoveTrace])
    | markUnresolvable i r =>
      exact absurd htr (by simp [isInsertRemoveTrace])
    | remove i =>
      rw [show isInsertRemoveTrace c (RegistryOp.remove i :: rest) =
          (((c.remove i).2).isSome && isInsertRemoveTrace ((RegistryOp.remove i).run c) rest)
        from rfl, Bool.and_eq_true] at htr
      have hsome : ((c.remove i).2).isSome = true := htr.1
      have htr' : isInsertRemoveTrace ((RegistryOp.remove i).run c) rest = true := htr.2
      have hrec := ih ((RegistryOp.remove i).run c) htr'
      have hstep : ((RegistryOp.remove i).run c).occCount + 1 = c.occCount :=
        occCount_remove c i hsome
      have hcadd : addCount (RegistryOp.remove i :: rest) = addCount rest := by
        simp [addCount, List.countP_cons, RegistryOp.isAdd]
      have hcrem : removeCount (RegistryOp.remove i :: rest) = removeCount rest + 1 := by
        simp [removeCount, List.countP_cons, RegistryOp.isRemoval]
      show (runOps ((RegistryOp.remove i).run c) rest).occCount +
        removeCount (RegistryOp.remove i :: rest) = c.occCount +
          addCount (RegistryOp.remove i :: rest)
      rw [hcadd, hcrem]
      omega

/-- Every pair yielded from position `k` onward has a handle position at least `k`. -/
theorem entriesFrom_mem_ge {α : Type u} :
    ∀ (l : List (Entry α)) (k : Nat) (p : Index × α),
      p ∈ Arena.entriesFrom k l → k ≤ p.1.index := by
  intro l
  induction l with
  | nil =>
    intro k p hp
    cases hp
  | cons e rest ih =>
    intro k p hp
    cases e with
    | Occupied g v =>
      rcases List.mem_cons.mp hp with h | h
      · subst h
        exact Nat.le_refl k
      · exact Nat.le_of_succ_le (ih (k + 1) p h)
    | Free nx =>
      exact Nat.le_of_succ_le (ih (k + 1) p hp)

/-- The yielded pairs carry strictly increasing handle positions. -/
theorem entriesFrom_pairwise {α : Type u} :
    ∀ (l : List (Entry α)) (k : Nat),
      (Arena.entriesFrom k l).Pairwise (fun p q => p.1.index < q.1.index) := by
  intro l
  induction l with
  | nil =>
    intro k
    exact List.Pairwise.nil
  | cons e rest ih =>
    intro k
    cases e with
    | Occupied g v =>
      refine List.Pairwise.cons ?_ (ih (k + 1))
      intro q hq
      have := entriesFrom_mem_ge rest (k + 1) q hq
      show k < q.1.index
      omega
    | Free nx =>
      exact ih (k + 1)

/-- Each yielded pair comes from an occupied slot stamped with the pair's handle
generation. -/
theorem entriesFrom_mem_slot {α : Type u} :
    ∀ (l : List (Entry α)) (k : Nat) (p : Index × α),
      p ∈ Arena.entriesFrom k l →
      k ≤ p.1.index ∧ l[p.1.index - k]? = some (Entry.Occupied p.1.generation p.2) := by
  intro l
  induction l with
  | nil =>
    intro k p hp
    cases hp
  | cons e rest ih =>
    intro k p hp
    cases e with
    | Occupied g v =>
      rcases List.mem_cons.mp hp with h | h
      · subst h
        refine ⟨Nat.le_refl k, ?_⟩
        rw [Nat.sub_self, List.getElem?_cons_zero]
      · obtain ⟨hk, hs⟩ := ih (k + 1) p h
        refine ⟨by omega, ?_⟩
        have hidx : p.1.index - k = (p.1.index - (k + 1)) + 1 := by omega
        rw [hidx, List.getElem?_cons_succ]
        exact hs
    | Free nx =>
      obtain ⟨hk, hs⟩ := ih (k + 1) p hp
      refine ⟨by omega, ?_⟩
      have hidx : p.1.index - k = (p.1.index - (k + 1)) + 1 := by omega
      rw [hidx, List.getElem?_cons_succ]
      exact hs

/-- The iteration of an arena reads each yielded pair off an occupied slot whose
stamp is the pair's handle generation. -/
theorem iterList_mem_slot {α : Type u} (a : Arena α) (p : Index × α)
    (hp : p ∈ a.iterList) :
    a.items[p.1.index]? = some (Entry.Occupied p.1.generation p.2) := by
  have := (entriesFrom_mem_slot a.items 0 p hp).2
  simpa using this

/-- The iteration yields exactly one pair per occupied slot. -/
theorem entriesFrom_length {α : Type u} :
    ∀ (l : List (Entry α)) (k : Nat), (Arena.entriesFrom k l).length = occList l := by
  intro l
  induction l with
  | nil =>
    intro k
    rfl
  | cons e rest ih =>
    intro k
    cases e with
    | Occupied g v =>
      show (Arena.entriesFrom (k + 1) rest).length + 1 = occList rest + 1
      rw [ih]
    | Free nx =>
      exact ih (k + 1)

/-- The registry iteration yields exactly one pair per live entry. -/
theorem statementIterList_length (c : ConstExpressions) :
    c.statementIterList.length = c.occCount := by
  unfold ConstExpressions.statementIterList Arena.iterList ConstExpressions.occCount
  rw [List.length_map]
  exact entriesFrom_length c.expressions.items 0

/-- No handle is yielded twice by the registry iteration. -/
theorem statementIterList_pairwise (c : ConstExpressions) :
    c.statementIterList.Pairwise (fun p q => p.1 ≠ q.1) := by
  unfold ConstExpressions.statementIterList Arena.iterList
  rw [List.pairwise_map]
  refine (entriesFrom_pairwise c.expressions.items 0).imp ?_
  intro p q hlt hEq
  exact absurd (congrArg Index.index hEq) (Nat.ne_of_lt hlt)

/-- A handle removed anywhere along a call sequence is dead in the final registry
(under the generation-bound invariant at the start). -/
theorem removedIds_deadAt :
    ∀ (ops : List RegistryOp) (c : ConstExpressions) (id : ConstId),
      c.expressions.genBound → id ∈ removedIds c ops →
      ((runOps c ops).expressions).DeadAt id := by
  intro ops
  induction ops with
  | nil =>
    intro c id _ h
    cases h
  | cons op rest ih =>
    intro c id hgb hmem
    cases op with
    | add s t =>
      exact ih ((RegistryOp.add s t).run c) id
        (runOp_preserves_genBound c (RegistryOp.add s t) hgb) hmem
    | markResolved i s =>
      exact ih ((RegistryOp.markResolved i s).run c) id
        (runOp_preserves_genBound c (RegistryOp.markResolved i s) hgb) hmem
    | markUnresolvable i r =>
      exact ih ((RegistryOp.markUnresolvable i r).run c) id
        (runOp_preserves_genBound c (RegistryOp.markUnresolvable i r) hgb) hmem
    | remove rid =>
      have hmem' : id ∈ (if ((c.remove rid).2).isSome then [rid] else []) ++
          removedIds ((RegistryOp.remove rid).run c) rest := hmem
      rcases List.mem_append.mp hmem' with h | h
      · by_cases hsome : ((c.remove rid).2).isSome = true
        · rw [if_pos hsome] at h
          have hid : id = rid := by simpa using h
          subst hid
          have harena : ((c.expressions.remove id).2).isSome = true := by
            rw [← ConstExpressions.remove_snd_isSome]
            exact hsome
          obtain ⟨w, hw⟩ := Option.isSome_iff_exists.mp harena
          have hdead : (((RegistryOp.remove id).run c).expressions).DeadAt id := by
            show ((c.remove id).1.expressions).DeadAt id
            rw [ConstExpressions.remove_fst]
            exact Arena.remove_establishes_deadAt c.expressions id w hgb hw
          exact runOps_preserves_deadAt ((RegistryOp.remove id).run c) rest id hdead
        · rw [if_neg hsome] at h
          cases h
      · exact ih ((RegistryOp.remove rid).run c) id
          (runOp_preserves_genBound c (RegistryOp.remove rid) hgb) h

/-- C8: for every registry reached from the empty registry by insertions and
successful removals, iteration yields exactly one pair per live entry: the number of
yielded pairs is the number of insertions minus the number of removals, no handle
appears twice, and no pair is yielded for any removed handle. -/
theorem iteration_yields_exactly_live_entries (ops : List RegistryOp)
    (htr : isInsertRemoveTrace ConstExpressions.new ops = true) :
    (runOps ConstExpressions.new ops).statementIterList.length =
      addCount ops - removeCount ops ∧
    removeCount ops ≤ addCount ops ∧
    (runOps ConstExpressions.new ops).statementIterList.Pairwise (fun p q => p.1 ≠ q.1) ∧
    ∀ id ∈ removedIds ConstExpressions.new ops,
      ∀ p ∈ (runOps ConstExpressions.new ops).statementIterList, p.1 ≠ id := by
  have hocc := trace_occCount ops ConstExpressions.new htr
  have hnew : ConstExpressions.new.occCount = 0 := rfl
  have hlen := statementIterList_length (runOps ConstExpressions.new ops)
  refine ⟨by omega, by omega, statementIterList_pairwise _, ?_⟩
  intro id hid p hp hEq
  have hgb : ConstExpressions.new.expressions.genBound := by
    intro i g v h
    cases h
  have hdead := removedIds_deadAt ops ConstExpressions.new id hgb hid
  obtain ⟨q, hq, hpq⟩ := List.mem_map.mp hp
  have hq1 : q.1 = id := by
    rw [← hpq] at hEq
    exact hEq
  have hslot := iterList_mem_slot (runOps ConstExpressions.new ops).expressions q hq
  rw [hq1] at hslot
  exact hdead.2 id.generation q.2 hslot rfl

/-- Witness for C8 on a concrete trace: after two insertions and one successful
removal, iteration yields exactly one pair. -/
theorem iteration_yields_exactly_live_entries_witness :
    isInsertRemoveTrace ConstExpressions.new wOps = true ∧
    (runOps ConstExpressions.new wOps).statementIterList.length =
      addCount wOps - removeCount wOps :=
  ⟨by decide, (iteration_yields_exactly_live_entries wOps (by decide)).1⟩
